import Mathlib

set_option maxRecDepth 20000

/-!
Verification of the understandsalah repository core.

JavaScript strings are embedded as `List Char`; JS timestamps (numbers used
only in subtraction and `<` comparisons) are embedded as `Int`.  The three
client variants share a transcription-buffer state machine; the server keeps
a single module-level pending-fragment list and a recognize-then-translate
pipeline.  All definitions below are translated from the JavaScript source;
where the source computes with floating-point literals (`maxLength * 0.8`,
`maxLength * 0.8 / 2`, `maxLength / 3`) the configured value `maxLength = 300`
makes every such expression exact (240, 120, 100), and the Nat renderings
used here coincide with the JS values at that configuration.
-/

/-- JS whitespace characters relevant to `String.prototype.trim` for the
character set this program manipulates (ASCII whitespace). -/
def isJsWs (c : Char) : Bool :=
  c == ' ' || c == '\n' || c == '\t' || c == '\r' || c == '\x0b' || c == '\x0c'

/-- Leading-whitespace removal, first half of JS `trim()`. -/
def trimStart (l : List Char) : List Char := l.dropWhile isJsWs

/-- Trailing-whitespace removal, second half of JS `trim()`. -/
def trimEnd (l : List Char) : List Char := (l.reverse.dropWhile isJsWs).reverse

/-- JS `s.trim()`. -/
def jsTrim (l : List Char) : List Char := trimEnd (trimStart l)

/-- Does `pat` occur in `l` starting at index `i`? -/
def occursAt (pat l : List Char) (i : Nat) : Bool := pat.isPrefixOf (l.drop i)

/-- JS `s.lastIndexOf(pat, fromIndex)`: the largest start index `≤ fromIndex`
at which `pat` occurs in `l`, or `-1` when there is none at or before
`fromIndex`. -/
def jsLastIndexOf (l pat : List Char) : Nat → Int
  | 0 => if occursAt pat l 0 then 0 else -1
  | i + 1 => if occursAt pat l (i + 1) then ((i + 1 : Nat) : Int) else jsLastIndexOf l pat i

/-- The paragraph-break marker `"\n\n"`. -/
def nlnl : List Char := ['\n', '\n']

/-- The ellipsis marker `'...'` prepended by every truncation. -/
def dots : List Char := ['.', '.', '.']

/-- JS truthiness test `text && text.trim()` used to gate each accumulator
update: the field must be present, non-empty, and not whitespace-only. -/
def jsNonEmptyText : Option (List Char) → Bool
  | none => false
  | some s => !s.isEmpty && !(jsTrim s).isEmpty

/-- The transcription buffer object of the client
(`transcriptionBuffer` literal, part_000 lines 24-30). -/
structure TranscriptionBuffer where
  arabic : List Char
  english : List Char
  lastUpdate : Int
  pauseThreshold : Int
  maxLength : Nat
deriving DecidableEq

/-- The initial buffer: empty accumulators, `lastUpdate: 0`,
`pauseThreshold: 2000`, `maxLength: 300`. -/
def initBuffer : TranscriptionBuffer :=
  { arabic := [], english := [], lastUpdate := 0, pauseThreshold := 2000, maxLength := 300 }

/-- Segment append of the compact policy (part_000 lines 59-65 and 82-86):
space-joined on continuation, paragraph-break otherwise. -/
def appendSegment (content text : List Char) (isCont : Bool) : List Char :=
  if isCont then jsTrim content ++ ' ' :: jsTrim text
  else jsTrim content ++ nlnl ++ jsTrim text

/-- Length management of the Arabic accumulator (part_000 lines 67-78). -/
def truncateArabic (maxLength : Nat) (content : List Char) : List Char :=
  if content.length > maxLength then
    let truncatePoint := content.length - maxLength + 100
    let lastBreak := jsLastIndexOf content nlnl truncatePoint
    let cut := if lastBreak > ((maxLength : Int) / 3) then lastBreak.toNat else truncatePoint
    dots ++ content.drop cut
  else content

/-- Length management of the English accumulator (part_000 lines 88-98);
`maxLength * 0.8 = 240` and `maxLength * 0.8 / 2 = 120` are exact at the
configured `maxLength = 300`. -/
def truncateEnglish (maxLength : Nat) (content : List Char) : List Char :=
  let engMax := maxLength * 4 / 5
  if content.length > engMax then
    let truncatePoint := content.length - engMax + 50
    let lastBreak := jsLastIndexOf content nlnl truncatePoint
    let cut := if lastBreak > ((engMax : Int) / 2) then lastBreak.toNat else truncatePoint
    dots ++ content.drop cut
  else content

/-- The function `manageCompactTranscription(arabicText, englishText, timestamp)`
(part_000 lines 51-105).  The continuation test reads the Arabic accumulator
for both languages, exactly as in the source. -/
def manageCompactTranscription (b : TranscriptionBuffer)
    (arabicText englishText : Option (List Char)) (timestamp : Int) : TranscriptionBuffer :=
  let timeDiff := timestamp - b.lastUpdate
  let isCont := decide (timeDiff < b.pauseThreshold) && decide ((jsTrim b.arabic).length > 0)
  let arabic :=
    if jsNonEmptyText arabicText then
      truncateArabic b.maxLength (appendSegment b.arabic (arabicText.getD []) isCont)
    else b.arabic
  let english :=
    if jsNonEmptyText englishText then
      truncateEnglish b.maxLength (appendSegment b.english (englishText.getD []) isCont)
    else b.english
  { b with arabic := arabic, english := english, lastUpdate := timestamp }

/-- Append step of the cumulative policy for one accumulator
(part_001 lines 54-65 and 75-84): replace when the current content is
whitespace-only, otherwise append, inserting a space when the last character
of the trimmed content is neither `' '` nor `'\n'`. -/
def cumulativeAppend (content text : List Char) : List Char :=
  let clean := jsTrim text
  if (jsTrim content).isEmpty then clean
  else
    let needsSpace :=
      match (jsTrim content).getLast? with
      | some c => !(c == ' ' || c == '\n')
      | none => false
    content ++ (if needsSpace then [' '] else []) ++ clean

/-- Length management of the cumulative policy (part_001 lines 67-72, 86-90):
past 2000 characters only the trailing 1500 are kept, behind an ellipsis. -/
def truncateCumulative (content : List Char) : List Char :=
  if content.length > 2000 then dots ++ content.drop (content.length - 1500)
  else content

/-- The function `manageCumulativeTranscription(arabicText, englishText)`
(part_001 lines 51-95); it takes no timestamp and never touches
`lastUpdate`. -/
def manageCumulativeTranscription (b : TranscriptionBuffer)
    (arabicText englishText : Option (List Char)) : TranscriptionBuffer :=
  let arabic :=
    if jsNonEmptyText arabicText then
      truncateCumulative (cumulativeAppend b.arabic (arabicText.getD []))
    else b.arabic
  let english :=
    if jsNonEmptyText englishText then
      truncateCumulative (cumulativeAppend b.english (englishText.getD []))
    else b.english
  { b with arabic := arabic, english := english }

/-! ## Server model

The server (code embedded after the README) keeps one module-level mutable
`audioBuffers` array shared by every connected socket; each handler of
`io.on('connection')` mutates it.  Events carry the id of the socket whose
handler fires; the state transition itself never consults that id (the
source closes over the one global array).  Each handler is modelled as
running to completion before the next event is dispatched. -/

/-- The mutable server state: the global `audioBuffers` list (fragments are
opaque, represented by `Nat` tags) and the log of batches handed to
`processAudioChunk`, tagged with the socket the results will go to. -/
structure ServerState where
  audioBuffers : List Nat
  submitted : List (Nat × List Nat)
deriving DecidableEq

/-- The socket events the server handles, tagged with the client id. -/
inductive ServerEvent where
  | startRecording (client : Nat)
  | audioChunk (client : Nat) (fragment : Nat)
  | stopRecording (client : Nat)
  | disconnect (client : Nat)
deriving DecidableEq

/-- One event handler of `io.on('connection')` (README lines 260-290):
`start-recording`, `stop-recording` and `disconnect` clear `audioBuffers`;
`audio-chunk` pushes the fragment and, once `audioBuffers.length >= 2`,
submits the whole list to the pipeline and clears it. -/
def serverStep (s : ServerState) : ServerEvent → ServerState
  | .startRecording _ => { s with audioBuffers := [] }
  | .audioChunk c f =>
    let p := s.audioBuffers ++ [f]
    if p.length ≥ 2 then { audioBuffers := [], submitted := s.submitted ++ [(c, p)] }
    else { s with audioBuffers := p }
  | .stopRecording _ => { s with audioBuffers := [] }
  | .disconnect _ => { s with audioBuffers := [] }

/-- The server state after a sequence of events, from the initial empty
`audioBuffers`. -/
def serverRun (evs : List ServerEvent) : ServerState :=
  evs.foldl serverStep { audioBuffers := [], submitted := [] }

/-! ## Pipeline model -/

/-- Observable outcome of one `processAudioChunk` call: whether the
translation capability was invoked, the `transcription-update` payload if
one was emitted, and the `error` payload if one was emitted. -/
structure PipelineResult where
  translateCalled : Bool
  emitted : Option (List Char × List Char)
  errorEmitted : Option (List Char)
deriving DecidableEq

/-- Models `response.results.map(r => r.alternatives[0].transcript).join('\n')`. -/
def joinNewline : List (List Char) → List Char
  | [] => []
  | [t] => t
  | t :: ts => t ++ '\n' :: joinNewline ts

/-- The function `processAudioChunk` (README lines 293-338): recognition, then
`if (transcription)` — JS truthiness, i.e. the joined transcript is not the
empty string — translation and a `transcription-update`; any thrown error is
caught and emitted as a single `error` event.  The recognition outcome and
the translation capability are inputs. -/
def processAudioChunk (recognition : Except (List Char) (List (List Char)))
    (translateFn : List Char → Except (List Char) (List Char)) : PipelineResult :=
  match recognition with
  | .error e => { translateCalled := false, emitted := none, errorEmitted := some e }
  | .ok results =>
    let transcription := joinNewline results
    if transcription.isEmpty then
      { translateCalled := false, emitted := none, errorEmitted := none }
    else
      match translateFn transcription with
      | .error e => { translateCalled := true, emitted := none, errorEmitted := some e }
      | .ok english =>
        { translateCalled := true, emitted := some (transcription, english), errorEmitted := none }

/-! ## Client recording model (for the `error` handler) -/

/-- Visual state of the record button (`updateButtonState`). -/
inductive ButtonState where
  | idle
  | recording
  | stopped
deriving DecidableEq

/-- Client recording state: `mediaRecorder` is `some capturing` when a
recorder object exists, `audioStream` whether a stream is held, `chunks`
the count of buffered blobs. -/
structure ClientState where
  mediaRecorder : Option Bool
  audioStream : Bool
  isRecording : Bool
  chunks : Nat
  button : ButtonState
deriving DecidableEq

/-- Is audio capture running? -/
def captureActive (s : ClientState) : Bool := s.mediaRecorder == some true

/-- The function `stopRecording()` (part_000 lines 261-273): under the guard
`mediaRecorder && isRecording` it stops and drops the recorder, clears the
chunk list and releases the stream; otherwise it does nothing. -/
def stopRecording (s : ClientState) : ClientState :=
  if s.mediaRecorder.isSome && s.isRecording then
    { s with mediaRecorder := none, chunks := 0, audioStream := false }
  else s

/-- The function `updateButtonState(state)` restricted to its observable effect. -/
def updateButtonState (s : ClientState) (b : ButtonState) : ClientState :=
  { s with button := b }

/-- The `socket.on('error')` handler (part_000 lines 339-344, identical in
script.js lines 256-261): `stopRecording()` then `updateButtonState('idle')`. -/
def onServerError (s : ClientState) : ClientState :=
  updateButtonState (stopRecording s) ButtonState.idle

/-! ## Shared helper lemmas -/

/-- The function `lastIndexOf` never reports a position past its `fromIndex`. -/
theorem jsLastIndexOf_le (l pat : List Char) : ∀ i, jsLastIndexOf l pat i ≤ (i : Int) := by
  intro i
  induction i with
  | zero => simp only [jsLastIndexOf]; split <;> omega
  | succ j ih =>
    simp only [jsLastIndexOf]
    split
    · omega
    · exact le_trans ih (by omega)

/-- Trimming returns an infix of its argument. -/
theorem jsTrim_contained (l : List Char) : jsTrim l <:+: l := by
  have h1 : trimStart l <:+ l := List.dropWhile_suffix _
  have h3 : jsTrim l <+: trimStart l := by
    simpa [jsTrim, trimEnd] using
      (List.dropWhile_suffix (l := (trimStart l).reverse) isJsWs).reverse
  exact (h3.isInfix).trans h1.isInfix

/-- The head surviving a `dropWhile` fails the predicate. -/
theorem head?_dropWhile {p : Char → Bool} :
    ∀ {l : List Char} {c : Char}, (l.dropWhile p).head? = some c → p c = false := by
  intro l
  induction l with
  | nil => intro c h; simp [List.dropWhile] at h
  | cons a l ih =>
    intro c h
    by_cases hp : p a
    · exact ih (by simpa [List.dropWhile, hp] using h)
    · have : a = c := by simpa [List.dropWhile, hp] using h
      subst this
      simpa using hp

/-- The last character of a trimmed string is never whitespace. -/
theorem jsTrim_getLast?_not_ws {l : List Char} {c : Char}
    (h : (jsTrim l).getLast? = some c) : isJsWs c = false := by
  have : ((trimStart l).reverse.dropWhile isJsWs).reverse.getLast? = some c := h
  rw [List.getLast?_reverse] at this
  exact head?_dropWhile this

/-- A two-character pattern `[x, x]` absent from `s` stays absent after
consing a character different from `x`. -/
theorem not_infix_cons {x d : Char} {s : List Char}
    (hs : ¬ [x, x] <:+: s) (hne : d ≠ x) : ¬ [x, x] <:+: d :: s := by
  intro h
  rcases List.infix_cons_iff.mp h with hpre | hinf
  · rcases List.cons_prefix_cons.mp hpre with ⟨hx, _⟩
    exact hne hx.symm
  · exact hs hinf

/-- A two-character pattern `[x, x]` cannot appear in `a ++ ch :: b` when it
appears in neither part and the joining character differs from `x`. -/
theorem not_infix_append_cons {x d : Char} {a b : List Char}
    (ha : ¬ [x, x] <:+: a) (hb : ¬ [x, x] <:+: b) (hne : d ≠ x) :
    ¬ [x, x] <:+: a ++ d :: b := by
  induction a with
  | nil => exact not_infix_cons hb hne
  | cons hd tl ih =>
    have htl : ¬ [x, x] <:+: tl := fun h => ha (List.infix_cons h)
    intro h
    rcases List.infix_cons_iff.mp (by simpa using h) with hpre | hinf
    · rcases List.cons_prefix_cons.mp hpre with ⟨hx1, hrest⟩
      cases tl with
      | nil =>
        have hx2 : x = d := by simpa using hrest
        exact hne hx2.symm
      | cons h2 t2 =>
        have hx2 : x = h2 := by simpa using hrest
        exact ha ⟨[], t2, by simp [← hx1, ← hx2]⟩
    · exact ih htl hinf

/-- Pattern absence is inherited by infixes. -/
theorem absent_of_contained {pat s l : List Char}
    (hl : ¬ pat <:+: l) (hs : s <:+: l) : ¬ pat <:+: s :=
  fun h => hl (h.trans hs)

/-- The paragraph-break marker does not appear in `dots ++ s` when it does
not appear in `s`. -/
theorem not_infix_dots {s : List Char} (hs : ¬ nlnl <:+: s) :
    ¬ nlnl <:+: dots ++ s := by
  have h1 : ¬ [('\n' : Char), '\n'] <:+: '.' :: s := not_infix_cons hs (by decide)
  have h2 : ¬ [('\n' : Char), '\n'] <:+: '.' :: '.' :: s := not_infix_cons h1 (by decide)
  have h3 : ¬ [('\n' : Char), '\n'] <:+: '.' :: '.' :: '.' :: s := not_infix_cons h2 (by decide)
  simpa [dots, nlnl] using h3

/-- Closed form of the Arabic truncation above the ceiling. -/
theorem truncateArabic_eq (c : List Char) (h : c.length > 300) :
    truncateArabic 300 c =
      if jsLastIndexOf c nlnl (c.length - 200) > 100 then
        dots ++ c.drop (jsLastIndexOf c nlnl (c.length - 200)).toNat
      else dots ++ c.drop (c.length - 200) := by
  have htp : c.length - 300 + 100 = c.length - 200 := by omega
  unfold truncateArabic
  rw [if_pos h]
  simp only [htp]
  norm_num
  split <;> rfl

/-- Closed form of the English truncation above its ceiling. -/
theorem truncateEnglish_eq (c : List Char) (h : c.length > 240) :
    truncateEnglish 300 c =
      if jsLastIndexOf c nlnl (c.length - 190) > 120 then
        dots ++ c.drop (jsLastIndexOf c nlnl (c.length - 190)).toNat
      else dots ++ c.drop (c.length - 190) := by
  have hm : (300 : Nat) * 4 / 5 = 240 := by norm_num
  have htp : c.length - 240 + 50 = c.length - 190 := by omega
  unfold truncateEnglish
  simp only [hm]
  rw [if_pos h]
  simp only [htp]
  norm_num
  split <;> rfl

/-- Dropping whitespace keeps a replicated non-whitespace character intact. -/
theorem dropWhile_isJsWs_replicate (c : Char) (h : isJsWs c = false) (n : Nat) :
    (List.replicate n c).dropWhile isJsWs = List.replicate n c := by
  cases n with
  | zero => rfl
  | succ m => simp [List.replicate_succ, List.dropWhile_cons, h]

/-- Trimming keeps a replicated non-whitespace character intact. -/
theorem jsTrim_replicate (c : Char) (h : isJsWs c = false) (n : Nat) :
    jsTrim (List.replicate n c) = List.replicate n c := by
  unfold jsTrim trimStart trimEnd
  rw [dropWhile_isJsWs_replicate c h, List.reverse_replicate,
    dropWhile_isJsWs_replicate c h, List.reverse_replicate]

/-- A replicated list of positive length is non-empty. -/
theorem replicate_succ_ne_nil (c : Char) (n : Nat) :
    List.replicate (n + 1) c ≠ [] := by
  intro h
  have := congrArg List.length h
  rw [List.length_replicate] at this
  simp at this

/-! ## Claims -/

/-- C1 counterexample: starting from the initial buffer, an update of 101
characters followed (after a structural pause) by one of 300 characters
makes the Arabic content 403 characters long; the backward search finds the
inserted paragraph break at index 101 (above the `maxLength/3 = 100`
threshold) and cuts there, leaving 305 characters — more than
`maxLength + 3 = 303`. -/
theorem claim_c1_counterexample :
    (appendSegment
        (manageCompactTranscription initBuffer (some (List.replicate 101 'a')) none 0).arabic
        (List.replicate 300 'b') false).length = 403 ∧
    403 > 300 ∧
    (manageCompactTranscription
        (manageCompactTranscription initBuffer (some (List.replicate 101 'a')) none 0)
        (some (List.replicate 300 'b')) none 5000).arabic.length = 305 ∧
    305 > 300 + 3 := by
  decide

/-- C1 (amended): whenever an accumulator's content exceeds its ceiling
after an append (300 Arabic, 240 English), the truncation yields an
ellipsis followed by a suffix of the pre-truncation content and is never
empty; when the backward search does not find a paragraph break above the
threshold (100 for Arabic, 120 for English), the cut is at the default
point and the result length is 203 resp. 193, within `maxLength + 3`; a cut
at a found break can exceed that bound (see the counterexample). -/
theorem claim_c1_amended (c c2 : List Char) (h : c.length > 300) (h2 : c2.length > 240) :
    ((∃ k, k ≤ c.length ∧ truncateArabic 300 c = dots ++ c.drop k) ∧
      truncateArabic 300 c ≠ [] ∧
      (jsLastIndexOf c nlnl (c.length - 200) ≤ 100 →
        (truncateArabic 300 c).length = 203 ∧ (truncateArabic 300 c).length ≤ 300 + 3)) ∧
    ((∃ k, k ≤ c2.length ∧ truncateEnglish 300 c2 = dots ++ c2.drop k) ∧
      truncateEnglish 300 c2 ≠ [] ∧
      (jsLastIndexOf c2 nlnl (c2.length - 190) ≤ 120 →
        (truncateEnglish 300 c2).length = 193 ∧ (truncateEnglish 300 c2).length ≤ 240 + 3)) := by
  constructor
  · rw [truncateArabic_eq c h]
    by_cases hbr : jsLastIndexOf c nlnl (c.length - 200) > 100
    · rw [if_pos hbr]
      have hle := jsLastIndexOf_le c nlnl (c.length - 200)
      refine ⟨⟨(jsLastIndexOf c nlnl (c.length - 200)).toNat, by omega, rfl⟩, by simp [dots], ?_⟩
      intro hcontra
      omega
    · rw [if_neg hbr]
      refine ⟨⟨c.length - 200, by omega, rfl⟩, by simp [dots], ?_⟩
      intro _
      constructor <;>
        · simp only [dots, List.length_append, List.length_cons, List.length_nil,
            List.length_drop]
          omega
  · rw [truncateEnglish_eq c2 h2]
    by_cases hbr : jsLastIndexOf c2 nlnl (c2.length - 190) > 120
    · rw [if_pos hbr]
      have hle := jsLastIndexOf_le c2 nlnl (c2.length - 190)
      refine ⟨⟨(jsLastIndexOf c2 nlnl (c2.length - 190)).toNat, by omega, rfl⟩, by simp [dots], ?_⟩
      intro hcontra
      omega
    · rw [if_neg hbr]
      refine ⟨⟨c2.length - 190, by omega, rfl⟩, by simp [dots], ?_⟩
      intro _
      constructor <;>
        · simp only [dots, List.length_append, List.length_cons, List.length_nil,
            List.length_drop]
          omega

/-- Concrete contents for the C1 amended witness. -/
def c1wArabic : List Char := List.replicate 301 'a'

/-- Concrete English content for the C1 amended witness. -/
def c1wEnglish : List Char := List.replicate 241 'b'

/-- Witness for the amended C1 theorem at over-ceiling contents with no
paragraph break. -/
theorem claim_c1_amended_witness :
    c1wArabic.length > 300 ∧ c1wEnglish.length > 240 ∧
    (((∃ k, k ≤ c1wArabic.length ∧ truncateArabic 300 c1wArabic = dots ++ c1wArabic.drop k) ∧
      truncateArabic 300 c1wArabic ≠ [] ∧
      (jsLastIndexOf c1wArabic nlnl (c1wArabic.length - 200) ≤ 100 →
        (truncateArabic 300 c1wArabic).length = 203 ∧
        (truncateArabic 300 c1wArabic).length ≤ 300 + 3)) ∧
    ((∃ k, k ≤ c1wEnglish.length ∧
        truncateEnglish 300 c1wEnglish = dots ++ c1wEnglish.drop k) ∧
      truncateEnglish 300 c1wEnglish ≠ [] ∧
      (jsLastIndexOf c1wEnglish nlnl (c1wEnglish.length - 190) ≤ 120 →
        (truncateEnglish 300 c1wEnglish).length = 193 ∧
        (truncateEnglish 300 c1wEnglish).length ≤ 240 + 3))) :=
  ⟨by decide, by decide, claim_c1_amended c1wArabic c1wEnglish (by decide) (by decide)⟩

/-- C4 counterexample: the very first update arrives at `t = 0` with a gap
`0 - 0 = 0 < 2000`, yet it is appended with the paragraph-break marker, not
a space, because the Arabic accumulator is still empty. -/
theorem claim_c4_counterexample :
    ((0 : Int) - initBuffer.lastUpdate < initBuffer.pauseThreshold) ∧
    (manageCompactTranscription initBuffer (some ['a', 'b']) none 0).arabic
      = nlnl ++ ['a', 'b'] ∧
    nlnl <:+: (manageCompactTranscription initBuffer (some ['a', 'b']) none 0).arabic ∧
    (manageCompactTranscription initBuffer (some ['a', 'b']) none 0).arabic
      ≠ jsTrim initBuffer.arabic ++ ' ' :: jsTrim ['a', 'b'] := by
  decide

/-- C4 (amended): a non-empty text whose gap is strictly below
`pauseThresholdMs` is appended (before length management) with a single
space separator only when the Arabic accumulator's trimmed content is
non-empty; the same continuation decision — based on the Arabic
accumulator — also governs the English accumulator.  When the Arabic
accumulator is empty or whitespace-only, a paragraph-break marker is used
even below the threshold. -/
theorem claim_c4_amended (b : TranscriptionBuffer) (sa se : List Char) (t : Int)
    (hgap : t - b.lastUpdate < b.pauseThreshold) (har : jsTrim b.arabic ≠ [])
    (hna : jsNonEmptyText (some sa) = true) (hnb : jsNonEmptyText (some se) = true) :
    (manageCompactTranscription b (some sa) (some se) t).arabic
      = truncateArabic b.maxLength (jsTrim b.arabic ++ ' ' :: jsTrim sa) ∧
    (manageCompactTranscription b (some sa) (some se) t).english
      = truncateEnglish b.maxLength (jsTrim b.english ++ ' ' :: jsTrim se) := by
  have hlen : (jsTrim b.arabic).length > 0 := List.length_pos.mpr har
  have hcont : (decide (t - b.lastUpdate < b.pauseThreshold)
      && decide ((jsTrim b.arabic).length > 0)) = true := by
    simp [hgap, hlen]
  constructor <;>
    simp [manageCompactTranscription, hna, hnb, hcont, appendSegment]

/-- Concrete buffer for the C4 amended witness. -/
def c4wBuffer : TranscriptionBuffer :=
  { arabic := ['a'], english := ['x'], lastUpdate := 0, pauseThreshold := 2000, maxLength := 300 }

/-- Witness for the amended C4 theorem: a continuation update at `t = 1000`
is space-joined in both accumulators. -/
theorem claim_c4_amended_witness :
    ((1000 : Int) - c4wBuffer.lastUpdate < c4wBuffer.pauseThreshold) ∧
    jsTrim c4wBuffer.arabic ≠ [] ∧
    jsNonEmptyText (some ['b']) = true ∧
    jsNonEmptyText (some ['y']) = true ∧
    ((manageCompactTranscription c4wBuffer (some ['b']) (some ['y']) 1000).arabic
        = truncateArabic c4wBuffer.maxLength (jsTrim c4wBuffer.arabic ++ ' ' :: jsTrim ['b']) ∧
      (manageCompactTranscription c4wBuffer (some ['b']) (some ['y']) 1000).english
        = truncateEnglish c4wBuffer.maxLength (jsTrim c4wBuffer.english ++ ' ' :: jsTrim ['y'])) :=
  ⟨by decide, by decide, by decide, by decide,
    claim_c4_amended c4wBuffer ['b'] ['y'] 1000 (by decide) (by decide) (by decide) (by decide)⟩

/-- C5: the compact-policy example scenario.  From the empty buffer, the
update at `t = 0` yields content `"\n\nبسم الله"` (displayed trimmed as
`"بسم الله"`); the update at `t = 1000` (gap `1000 < 2000`) space-joins to
`"بسم الله الرحمن الرحيم"`; the update at `t = 5000` (gap `4000 ≥ 2000`)
opens a new paragraph segment. -/
theorem claim_c5_compact_example_scenario :
    (manageCompactTranscription initBuffer (some "بسم الله".data) none 0).arabic
      = "\n\nبسم الله".data ∧
    jsTrim (manageCompactTranscription initBuffer (some "بسم الله".data) none 0).arabic
      = "بسم الله".data ∧
    (manageCompactTranscription
        (manageCompactTranscription initBuffer (some "بسم الله".data) none 0)
        (some "الرحمن الرحيم".data) none 1000).arabic
      = "بسم الله الرحمن الرحيم".data ∧
    (manageCompactTranscription
        (manageCompactTranscription
          (manageCompactTranscription initBuffer (some "بسم الله".data) none 0)
          (some "الرحمن الرحيم".data) none 1000)
        (some "الحمد لله".data) none 5000).arabic
      = "بسم الله الرحمن الرحيم\n\nالحمد لله".data := by
  decide

/-- When the current content is not whitespace-only, the cumulative append
always inserts exactly one space: the last character of the trimmed content
can never be whitespace, so the source's `needsSpace` test always passes. -/
theorem cumulativeAppend_eq (content text : List Char) (h : jsTrim content ≠ []) :
    cumulativeAppend content text = content ++ ' ' :: jsTrim text := by
  have hcl : (jsTrim content).getLast? = some ((jsTrim content).getLast h) :=
    List.getLast?_eq_getLast _ h
  have hw := jsTrim_getLast?_not_ws hcl
  have hsp : ((jsTrim content).getLast h == ' ') = false := by
    by_contra hx
    simp only [Bool.not_eq_false, beq_iff_eq] at hx
    rw [hx] at hw
    simp [isJsWs] at hw
  have hnl : ((jsTrim content).getLast h == '\n') = false := by
    by_contra hx
    simp only [Bool.not_eq_false, beq_iff_eq] at hx
    rw [hx] at hw
    simp [isJsWs] at hw
  have hns : (!((jsTrim content).getLast h == ' ' || (jsTrim content).getLast h == '\n'))
      = true := by
    simp [hsp, hnl]
  unfold cumulativeAppend
  rw [if_neg (by simpa using h)]
  rw [hcl]
  simp only [hns, if_true]
  simp

/-- The cumulative step for one accumulator introduces no paragraph-break
marker. -/
theorem cumulative_no_break (content s : List Char)
    (hc : ¬ nlnl <:+: content) (hs : ¬ nlnl <:+: s) :
    ¬ nlnl <:+: truncateCumulative (cumulativeAppend content s) := by
  have hclean : ¬ nlnl <:+: jsTrim s := absent_of_contained hs (jsTrim_contained s)
  have happ : ¬ nlnl <:+: cumulativeAppend content s := by
    by_cases hne : jsTrim content = []
    · unfold cumulativeAppend
      rw [if_pos (by simpa using hne)]
      exact hclean
    · rw [cumulativeAppend_eq content s hne]
      simpa [nlnl] using
        not_infix_append_cons (x := '\n') (d := ' ')
          (by simpa [nlnl] using hc) (by simpa [nlnl] using hclean) (by decide)
  unfold truncateCumulative
  split
  · exact not_infix_dots
      (absent_of_contained happ (List.drop_suffix _ _).isInfix)
  · exact happ

/-- C6: appending a 200-character (already-trimmed) update to a
1900-character buffer gives a 2101-character concatenation, which the
cumulative policy truncates to exactly 1503 characters: the ellipsis marker
followed by the trailing 1500 characters, an exact suffix of the pre-append
concatenation; and in general any content exceeding 2000 characters is
replaced by the ellipsis marker plus its trailing 1500 characters. -/
theorem claim_c6_cumulative_truncation (buf tx c : List Char)
    (hb : buf.length = 1900) (ht : jsTrim buf ≠ []) (hx : tx.length = 200)
    (hclean : jsTrim tx = tx) (hcl : c.length > 2000) :
    (cumulativeAppend buf tx).length = 2101 ∧
    (manageCumulativeTranscription { initBuffer with arabic := buf } (some tx) none).arabic
      = dots ++ (cumulativeAppend buf tx).drop 601 ∧
    (cumulativeAppend buf tx).drop 601 <:+ cumulativeAppend buf tx ∧
    (manageCumulativeTranscription
        { initBuffer with arabic := buf } (some tx) none).arabic.length = 1503 ∧
    truncateCumulative c = dots ++ c.drop (c.length - 1500) ∧
    (truncateCumulative c).length = 1503 := by
  have happ : cumulativeAppend buf tx = buf ++ ' ' :: jsTrim tx := cumulativeAppend_eq buf tx ht
  have hlen : (cumulativeAppend buf tx).length = 2101 := by
    rw [happ, hclean]
    simp [hb, hx]
  have htx0 : tx ≠ [] := by
    intro h0
    rw [h0] at hx
    simp at hx
  have hne : jsNonEmptyText (some tx) = true := by
    simp [jsNonEmptyText, List.isEmpty_iff, htx0, hclean]
  have harab : (manageCumulativeTranscription
      { initBuffer with arabic := buf } (some tx) none).arabic
      = truncateCumulative (cumulativeAppend buf tx) := by
    simp [manageCumulativeTranscription, hne]
  have htr : truncateCumulative (cumulativeAppend buf tx)
      = dots ++ (cumulativeAppend buf tx).drop 601 := by
    unfold truncateCumulative
    rw [if_pos (by omega), hlen]
  have hgen : truncateCumulative c = dots ++ c.drop (c.length - 1500) := by
    unfold truncateCumulative
    rw [if_pos hcl]
  refine ⟨hlen, by rw [harab, htr], List.drop_suffix _ _, ?_, hgen, ?_⟩
  · rw [harab, htr]
    simp only [dots, List.length_append, List.length_cons, List.length_nil, List.length_drop]
    omega
  · rw [hgen]
    simp only [dots, List.length_append, List.length_cons, List.length_nil, List.length_drop]
    omega

/-- Concrete 1900-character buffer for the C6 witness. -/
def c6wBuffer : List Char := List.replicate 1900 'a'

/-- Concrete 200-character update for the C6 witness. -/
def c6wText : List Char := List.replicate 200 'b'

/-- Concrete over-ceiling content for the C6 witness. -/
def c6wOver : List Char := List.replicate 2001 'c'

/-- Witness for the C6 theorem at concrete contents. -/
theorem claim_c6_witness :
    c6wBuffer.length = 1900 ∧ jsTrim c6wBuffer ≠ [] ∧ c6wText.length = 200 ∧
    jsTrim c6wText = c6wText ∧ c6wOver.length > 2000 ∧
    ((cumulativeAppend c6wBuffer c6wText).length = 2101 ∧
      (manageCumulativeTranscription
          { initBuffer with arabic := c6wBuffer } (some c6wText) none).arabic
        = dots ++ (cumulativeAppend c6wBuffer c6wText).drop 601 ∧
      (cumulativeAppend c6wBuffer c6wText).drop 601 <:+ cumulativeAppend c6wBuffer c6wText ∧
      (manageCumulativeTranscription
          { initBuffer with arabic := c6wBuffer } (some c6wText) none).arabic.length = 1503 ∧
      truncateCumulative c6wOver = dots ++ c6wOver.drop (c6wOver.length - 1500) ∧
      (truncateCumulative c6wOver).length = 1503) :=
  ⟨by rw [c6wBuffer, List.length_replicate],
    by rw [c6wBuffer, jsTrim_replicate 'a' (by decide) 1900]; exact replicate_succ_ne_nil 'a' 1899,
    by rw [c6wText, List.length_replicate],
    by rw [c6wText]; exact jsTrim_replicate 'b' (by decide) 200,
    by rw [c6wOver, List.length_replicate]; omega,
    claim_c6_cumulative_truncation c6wBuffer c6wText c6wOver
      (by rw [c6wBuffer, List.length_replicate])
      (by rw [c6wBuffer, jsTrim_replicate 'a' (by decide) 1900]
          exact replicate_succ_ne_nil 'a' 1899)
      (by rw [c6wText, List.length_replicate])
      (by rw [c6wText]; exact jsTrim_replicate 'b' (by decide) 200)
      (by rw [c6wOver, List.length_replicate]; omega)⟩

/-- C7: the cumulative policy never inserts a paragraph-break marker: if
neither the accumulators nor the incoming texts contain `"\n\n"`, neither
does any accumulator after the update; and each non-empty update joins
non-whitespace-only content with exactly one space separator. -/
theorem claim_c7_cumulative_no_paragraph_breaks (b : TranscriptionBuffer) (sa se : List Char)
    (ha : ¬ nlnl <:+: b.arabic) (he : ¬ nlnl <:+: b.english)
    (hsa : ¬ nlnl <:+: sa) (hse : ¬ nlnl <:+: se) :
    (¬ nlnl <:+: (manageCumulativeTranscription b (some sa) (some se)).arabic) ∧
    (¬ nlnl <:+: (manageCumulativeTranscription b (some sa) (some se)).english) ∧
    (jsTrim b.arabic ≠ [] → cumulativeAppend b.arabic sa = b.arabic ++ ' ' :: jsTrim sa) ∧
    (jsTrim b.english ≠ [] → cumulativeAppend b.english se = b.english ++ ' ' :: jsTrim se) := by
  refine ⟨?_, ?_, fun h => cumulativeAppend_eq _ _ h, fun h => cumulativeAppend_eq _ _ h⟩
  · by_cases hne : jsNonEmptyText (some sa) = true
    · have : (manageCumulativeTranscription b (some sa) (some se)).arabic
          = truncateCumulative (cumulativeAppend b.arabic sa) := by
        simp [manageCumulativeTranscription, hne]
      rw [this]
      exact cumulative_no_break _ _ ha hsa
    · have : (manageCumulativeTranscription b (some sa) (some se)).arabic = b.arabic := by
        simp [manageCumulativeTranscription, Bool.eq_false_iff.mpr hne]
      rw [this]
      exact ha
  · by_cases hne : jsNonEmptyText (some se) = true
    · have : (manageCumulativeTranscription b (some sa) (some se)).english
          = truncateCumulative (cumulativeAppend b.english se) := by
        simp [manageCumulativeTranscription, hne]
      rw [this]
      exact cumulative_no_break _ _ he hse
    · have : (manageCumulativeTranscription b (some sa) (some se)).english = b.english := by
        simp [manageCumulativeTranscription, Bool.eq_false_iff.mpr hne]
      rw [this]
      exact he

/-- Concrete buffer for the C7 witness. -/
def c7wBuffer : TranscriptionBuffer :=
  { arabic := ['a'], english := ['x'], lastUpdate := 0, pauseThreshold := 2000, maxLength := 300 }

/-- Witness for the C7 theorem at concrete contents. -/
theorem claim_c7_witness :
    (¬ nlnl <:+: c7wBuffer.arabic) ∧ (¬ nlnl <:+: c7wBuffer.english) ∧
    (¬ nlnl <:+: ['b']) ∧ (¬ nlnl <:+: ['y']) ∧
    ((¬ nlnl <:+: (manageCumulativeTranscription c7wBuffer (some ['b']) (some ['y'])).arabic) ∧
      (¬ nlnl <:+: (manageCumulativeTranscription c7wBuffer (some ['b']) (some ['y'])).english) ∧
      (jsTrim c7wBuffer.arabic ≠ [] →
        cumulativeAppend c7wBuffer.arabic ['b'] = c7wBuffer.arabic ++ ' ' :: jsTrim ['b']) ∧
      (jsTrim c7wBuffer.english ≠ [] →
        cumulativeAppend c7wBuffer.english ['y'] = c7wBuffer.english ++ ' ' :: jsTrim ['y'])) :=
  ⟨by decide, by decide, by decide, by decide,
    claim_c7_cumulative_no_paragraph_breaks c7wBuffer ['b'] ['y']
      (by decide) (by decide) (by decide) (by decide)⟩

/-- One server event keeps the pending list below the batch threshold. -/
theorem serverStep_pending_le (s : ServerState) (h : s.audioBuffers.length ≤ 1)
    (e : ServerEvent) : (serverStep s e).audioBuffers.length ≤ 1 := by
  cases e with
  | startRecording c => simp [serverStep]
  | audioChunk c f =>
    simp only [serverStep]
    split
    · simp
    · next hlt =>
      simp only [List.length_append, List.length_cons, List.length_nil] at hlt ⊢
      omega
  | stopRecording c => simp [serverStep]
  | disconnect c => simp [serverStep]

/-- Every reachable server state has a pending list below the batch
threshold. -/
theorem serverRun_pending_le (evs : List ServerEvent) :
    (serverRun evs).audioBuffers.length ≤ 1 := by
  suffices h : ∀ s : ServerState, s.audioBuffers.length ≤ 1 →
      (evs.foldl serverStep s).audioBuffers.length ≤ 1 by
    exact h { audioBuffers := [], submitted := [] } (by simp)
  induction evs with
  | nil =>
    intro s hs
    simpa using hs
  | cons e rest ih =>
    intro s hs
    exact ih _ (serverStep_pending_le s hs e)

/-- C2: in every reachable server state the pending list holds at most one
fragment; an `audio-chunk` submits a batch exactly when it brings the
pending count to the threshold 2, in which case the pending list is cleared
in the same step as the submission is recorded; `stop-recording` and
`start-recording` clear the pending list without submitting anything. -/
theorem claim_c2_batch_iff_threshold (evs : List ServerEvent) (c f : Nat) :
    (serverRun evs).audioBuffers.length ≤ 1 ∧
    ((serverStep (serverRun evs) (.audioChunk c f)).submitted ≠ (serverRun evs).submitted ↔
      ((serverRun evs).audioBuffers ++ [f]).length = 2) ∧
    (((serverRun evs).audioBuffers ++ [f]).length = 2 →
      serverStep (serverRun evs) (.audioChunk c f)
        = { audioBuffers := [],
            submitted := (serverRun evs).submitted
              ++ [(c, (serverRun evs).audioBuffers ++ [f])] }) ∧
    serverStep (serverRun evs) (.stopRecording c) = { serverRun evs with audioBuffers := [] } ∧
    serverStep (serverRun evs) (.startRecording c) = { serverRun evs with audioBuffers := [] } := by
  have hp := serverRun_pending_le evs
  refine ⟨hp, ?_, ?_, rfl, rfl⟩
  · constructor
    · intro hne
      by_contra hlen
      have hlt : ¬ ((serverRun evs).audioBuffers ++ [f]).length ≥ 2 := by
        simp only [List.length_append, List.length_cons, List.length_nil] at hlen ⊢
        omega
      exact hne (by
        simp only [serverStep]
        rw [if_neg hlt])
    · intro hlen
      have hge : ((serverRun evs).audioBuffers ++ [f]).length ≥ 2 := by omega
      have hstep : (serverStep (serverRun evs) (.audioChunk c f)).submitted
          = (serverRun evs).submitted ++ [(c, (serverRun evs).audioBuffers ++ [f])] := by
        simp only [serverStep]
        rw [if_pos hge]
      rw [hstep]
      intro hcontra
      have := congrArg List.length hcontra
      simp at this
  · intro hlen
    have hge : ((serverRun evs).audioBuffers ++ [f]).length ≥ 2 := by omega
    simp only [serverStep]
    rw [if_pos hge]

/-- Witness for the C2 theorem after one buffered fragment. -/
theorem claim_c2_witness :
    (serverRun [ServerEvent.audioChunk 0 7]).audioBuffers.length ≤ 1 ∧
    ((serverStep (serverRun [ServerEvent.audioChunk 0 7])
        (.audioChunk 1 9)).submitted ≠ (serverRun [ServerEvent.audioChunk 0 7]).submitted ↔
      ((serverRun [ServerEvent.audioChunk 0 7]).audioBuffers ++ [9]).length = 2) ∧
    (((serverRun [ServerEvent.audioChunk 0 7]).audioBuffers ++ [9]).length = 2 →
      serverStep (serverRun [ServerEvent.audioChunk 0 7]) (.audioChunk 1 9)
        = { audioBuffers := [],
            submitted := (serverRun [ServerEvent.audioChunk 0 7]).submitted
              ++ [(1, (serverRun [ServerEvent.audioChunk 0 7]).audioBuffers ++ [9])] }) ∧
    serverStep (serverRun [ServerEvent.audioChunk 0 7]) (.stopRecording 1)
      = { serverRun [ServerEvent.audioChunk 0 7] with audioBuffers := [] } ∧
    serverStep (serverRun [ServerEvent.audioChunk 0 7]) (.startRecording 1)
      = { serverRun [ServerEvent.audioChunk 0 7] with audioBuffers := [] } :=
  claim_c2_batch_iff_threshold [ServerEvent.audioChunk 0 7] 1 9

/-- C8 counterexample: the pending list is one shared module-level array,
not per-connection state: client 1's `start-recording` clears the fragment
client 0 had pending, and a batch emitted to client 1 contains client 0's
fragment. -/
theorem claim_c8_counterexample :
    (serverRun [ServerEvent.audioChunk 0 7]).audioBuffers = [7] ∧
    (serverRun [ServerEvent.audioChunk 0 7, ServerEvent.startRecording 1]).audioBuffers = [] ∧
    (serverRun [ServerEvent.audioChunk 0 7,
        ServerEvent.startRecording 1]).audioBuffers ≠
      (serverRun [ServerEvent.audioChunk 0 7]).audioBuffers ∧
    (serverRun [ServerEvent.audioChunk 0 7, ServerEvent.audioChunk 1 9]).submitted
      = [(1, [7, 9])] := by
  decide

/-- C8 (amended): the server keeps a single process-wide pending-fragment
list shared by all connections: the state transition of every event is
independent of which client sent it (the client id only tags where a
completed batch's results are emitted). -/
theorem claim_c8_amended (s : ServerState) (c c' f : Nat) :
    serverStep s (.startRecording c) = serverStep s (.startRecording c') ∧
    serverStep s (.stopRecording c) = serverStep s (.stopRecording c') ∧
    serverStep s (.disconnect c) = serverStep s (.disconnect c') ∧
    (serverStep s (.audioChunk c f)).audioBuffers
      = (serverStep s (.audioChunk c' f)).audioBuffers := by
  refine ⟨rfl, rfl, rfl, ?_⟩
  simp only [serverStep]
  split <;> rfl

/-- Witness for the amended C8 theorem. -/
theorem claim_c8_amended_witness :
    serverStep { audioBuffers := [7], submitted := [] } (.startRecording 0)
      = serverStep { audioBuffers := [7], submitted := [] } (.startRecording 1) ∧
    serverStep { audioBuffers := [7], submitted := [] } (.stopRecording 0)
      = serverStep { audioBuffers := [7], submitted := [] } (.stopRecording 1) ∧
    serverStep { audioBuffers := [7], submitted := [] } (.disconnect 0)
      = serverStep { audioBuffers := [7], submitted := [] } (.disconnect 1) ∧
    (serverStep { audioBuffers := [7], submitted := [] } (.audioChunk 0 9)).audioBuffers
      = (serverStep { audioBuffers := [7], submitted := [] } (.audioChunk 1 9)).audioBuffers :=
  claim_c8_amended { audioBuffers := [7], submitted := [] } 0 1 9

/-- C3 counterexample: a recognition result whose only transcript is a
single space is whitespace-only (empty after trimming), yet the pipeline
calls the translation capability and emits a `transcription-update`,
because the source only tests JS truthiness of the joined transcript, not
its trimmed value. -/
theorem claim_c3_counterexample :
    jsTrim (joinNewline [[' ']]) = [] ∧
    (processAudioChunk (.ok [[' ']]) (fun t => .ok t)).translateCalled = true ∧
    (processAudioChunk (.ok [[' ']]) (fun t => .ok t)).emitted = some ([' '], [' ']) := by
  decide

/-- C3 (amended): when recognition succeeds, no translation call is made
and no update is emitted exactly when the joined transcript is the empty
string; an update is emitted exactly when the joined transcript is
non-empty — whitespace-only included — and translation succeeds. -/
theorem claim_c3_amended (recog : Except (List Char) (List (List Char)))
    (trFn : List Char → Except (List Char) (List Char)) (rs : List (List Char))
    (hok : recog = .ok rs) :
    (joinNewline rs = [] →
      (processAudioChunk recog trFn).translateCalled = false ∧
      (processAudioChunk recog trFn).emitted = none ∧
      (processAudioChunk recog trFn).errorEmitted = none) ∧
    ((processAudioChunk recog trFn).emitted ≠ none ↔
      joinNewline rs ≠ [] ∧ ∃ en, trFn (joinNewline rs) = .ok en) := by
  subst hok
  constructor
  · intro hj
    simp [processAudioChunk, hj]
  · by_cases hj : joinNewline rs = []
    · simp [processAudioChunk, hj]
    · cases htr : trFn (joinNewline rs) with
      | error e => simp [processAudioChunk, List.isEmpty_iff, hj, htr]
      | ok en => simp [processAudioChunk, List.isEmpty_iff, hj, htr]

/-- Witness for the amended C3 theorem. -/
theorem claim_c3_amended_witness :
    ((joinNewline [['a']] = [] →
      (processAudioChunk (.ok [['a']]) (fun t => .ok t)).translateCalled = false ∧
      (processAudioChunk (.ok [['a']]) (fun t => .ok t)).emitted = none ∧
      (processAudioChunk (.ok [['a']]) (fun t => .ok t)).errorEmitted = none) ∧
    ((processAudioChunk (.ok [['a']]) (fun t => .ok t)).emitted ≠ none ↔
      joinNewline [['a']] ≠ [] ∧ ∃ en, (fun t => Except.ok (ε := List Char) t)
        (joinNewline [['a']]) = .ok en)) :=
  claim_c3_amended (.ok [['a']]) (fun t => .ok t) [['a']] rfl

/-- C9: an update whose two text fields are both absent, empty, or
whitespace-only leaves both accumulators unchanged yet still overwrites
`lastUpdate` with the update's timestamp; consequently an empty update at
`t = 3000` makes a later text at `t = 4000` a space-joined continuation,
whereas without it the same text at `t = 4000` would open a new paragraph
segment. -/
theorem claim_c9_empty_update_frame (b : TranscriptionBuffer)
    (atx etx : Option (List Char)) (t : Int)
    (ha : jsNonEmptyText atx = false) (he : jsNonEmptyText etx = false) :
    manageCompactTranscription b atx etx t = { b with lastUpdate := t } ∧
    (manageCompactTranscription
        (manageCompactTranscription (manageCompactTranscription initBuffer (some ['a']) none 0)
          (some [' ']) none 3000)
        (some ['b']) none 4000).arabic = ['a', ' ', 'b'] ∧
    (manageCompactTranscription (manageCompactTranscription initBuffer (some ['a']) none 0)
        (some ['b']) none 4000).arabic = ['a', '\n', '\n', 'b'] := by
  refine ⟨?_, by decide, by decide⟩
  simp [manageCompactTranscription, ha, he]

/-- Witness for the C9 theorem at a whitespace-only update. -/
theorem claim_c9_witness :
    jsNonEmptyText (none : Option (List Char)) = false ∧
    jsNonEmptyText (some [' ']) = false ∧
    (manageCompactTranscription initBuffer none (some [' ']) 5
        = { initBuffer with lastUpdate := 5 } ∧
      (manageCompactTranscription
          (manageCompactTranscription (manageCompactTranscription initBuffer (some ['a']) none 0)
            (some [' ']) none 3000)
          (some ['b']) none 4000).arabic = ['a', ' ', 'b'] ∧
      (manageCompactTranscription (manageCompactTranscription initBuffer (some ['a']) none 0)
          (some ['b']) none 4000).arabic = ['a', '\n', '\n', 'b']) :=
  ⟨by decide, by decide,
    claim_c9_empty_update_frame initBuffer none (some [' ']) 5 (by decide) (by decide)⟩

/-- C10: in any client state where running capture implies the recording
flag is set (which every state reachable through the recorder's `onstart`
handler satisfies), the `error` handler leaves audio capture stopped and
the record button idle. -/
theorem claim_c10_error_stops_recording (s : ClientState)
    (h : captureActive s = true → s.isRecording = true) :
    captureActive (onServerError s) = false ∧ (onServerError s).button = ButtonState.idle := by
  cases hm : s.mediaRecorder with
  | none => simp [onServerError, updateButtonState, stopRecording, captureActive, hm]
  | some cap =>
    cases cap with
    | true =>
      have hrec : s.isRecording = true := h (by simp [captureActive, hm])
      simp [onServerError, updateButtonState, stopRecording, captureActive, hm, hrec]
    | false =>
      by_cases hrec : s.isRecording = true
      · simp [onServerError, updateButtonState, stopRecording, captureActive, hm, hrec]
      · have hrec' : s.isRecording = false := by simpa using hrec
        simp [onServerError, updateButtonState, stopRecording, captureActive, hm, hrec']

/-- Concrete recording client state for the C10 witness. -/
def c10wState : ClientState :=
  { mediaRecorder := some true, audioStream := true, isRecording := true,
    chunks := 3, button := ButtonState.recording }

/-- Witness for the C10 theorem on a live recording session. -/
theorem claim_c10_witness :
    (captureActive c10wState = true → c10wState.isRecording = true) ∧
    (captureActive (onServerError c10wState) = false ∧
      (onServerError c10wState).button = ButtonState.idle) :=
  ⟨by decide, claim_c10_error_stops_recording c10wState (by decide)⟩
